import Mathlib

/-!
Verification of `OpenSim/Common/TableSource.h` (class `TableSource_`, instantiated
at element type `SimTK::Real`, i.e. the `TableSource` typedef).

The embedding models:
- `TimeSeriesTable_` as `Table`: an independent (time) column, optional column
  labels (`DataTable::getColumnLabels` throws `KeyNotFound` when labels were never
  set, which we model with `Option`), and the data rows.  Element access is
  bounds-checked (`Option`-returning), so that reachability of out-of-bounds
  accesses is visible in the model.
- exceptions as an error type `TableError`; a method that can throw returns
  `Except TableError _` (queries) or a final state paired with
  `Option TableError` (mutators, where the state reached at the throw point is
  retained, as it is for a C++ exception escaping a mutating member function).
- real arithmetic by exact rational arithmetic (`ℚ`).
-/

deriving instance DecidableEq for Except

namespace OpenSim

/-- The exceptions thrown by the code in `TableSource.h`:
`EmptyTable`, `TimeOutOfRange` (carrying the offending timestamp and the
min/max bounds, in the argument order of the C++ constructor),
`KeyNotFound` (unknown column label / absent column labels) and the
duplicate-channel failure of `Output::addChannel`. -/
inductive TableError : Type where
  | EmptyTable : TableError
  | TimeOutOfRange : ℚ → ℚ → ℚ → TableError
  | KeyNotFound : TableError
  | DuplicateChannel : TableError
deriving DecidableEq

/-- Model of `TimeSeriesTable_<Real>`: time column, optional column labels, data rows. -/
structure Table : Type where
  independentColumn : List ℚ
  columnLabels : Option (List String)
  rows : List (List ℚ)
deriving DecidableEq

/-- Model of `TimeSeriesTable_::getNumRows`. -/
def Table.getNumRows (tbl : Table) : Nat := tbl.rows.length

/-- Model of `DataTable::getColumnIndex(label)`: index of `label` among the column labels;
`none` models the `KeyNotFound` throw (label absent, or labels never set). -/
def Table.getColumnIndex (tbl : Table) (label : String) : Option Nat :=
  tbl.columnLabels.bind (fun ls => ls.findIdx? (fun l => l == label))

/-- Model of `getMatrix().getElt(i, j)`, bounds-checked. -/
def Table.getElt (tbl : Table) (i j : Nat) : Option ℚ :=
  (tbl.rows[i]?).bind (fun r => r[j]?)

/-- Model of `getRowAtIndex(i).getAsVector()`, bounds-checked. -/
def Table.getRowAtIndex (tbl : Table) (i : Nat) : Option (List ℚ) :=
  tbl.rows[i]?

/-- Number of data columns (the number of column labels, when set). -/
def Table.numColumns (tbl : Table) : Nat := (tbl.columnLabels.getD []).length

/-- Well-formedness of a table (spec §3): one row per time sample, and every
row as wide as the label list. -/
def Table.WF (tbl : Table) : Prop :=
  tbl.rows.length = tbl.independentColumn.length ∧
  ∀ r ∈ tbl.rows, r.length = tbl.numColumns

instance (tbl : Table) : Decidable tbl.WF := by
  unfold Table.WF
  exact inferInstance

/-- Model of `std::lower_bound(timeCol.begin(), timeCol.end(), time)`, as specified by the
C++ standard for a range partitioned with respect to `(· < time)`: the first
position whose element is not less than `time`; `l.length` plays the role of the
`end` iterator (`List.findIdx` returns `l.length` when no element qualifies). -/
def lowerBound (l : List ℚ) (t : ℚ) : Nat :=
  l.findIdx (fun x => !decide (x < t))

/-- Model of `TableSource_<Real>`: the held table and the channel registry of the
`column` list output (the labels of its channels, in insertion order). -/
structure TableSource : Type where
  _table : Table
  channels : List String
deriving DecidableEq

/-- Model of `TableSource_::getTable`. -/
def TableSource.getTable (src : TableSource) : Table := src._table

/-- Model of `TableSource_::getColumnAtTime(state, columnLabel)` (TableSource.h lines
123-152): empty-table check, range check against `front()`/`back()` of the
independent column, column-index resolution, `std::lower_bound`, then the
boundary / exact-hit / interpolation branches. -/
def TableSource.getColumnAtTime (src : TableSource) (time : ℚ) (columnLabel : String) :
    Except TableError (Option ℚ) :=
  if src._table.getNumRows = 0 then .error .EmptyTable else
  let timeCol := src._table.independentColumn
  if time < timeCol.getD 0 0 ∨ time > timeCol.getD (timeCol.length - 1) 0 then
    .error (.TimeOutOfRange time (timeCol.getD 0 0) (timeCol.getD (timeCol.length - 1) 0))
  else
    match src._table.getColumnIndex columnLabel with
    | none => .error .KeyNotFound
    | some colInd =>
      let lb := lowerBound timeCol time
      if lb = 0 then .ok (src._table.getElt 0 colInd)
      else if lb = timeCol.length then .ok (src._table.getElt (timeCol.length - 1) colInd)
      else if timeCol.getD lb 0 = time then .ok (src._table.getElt lb colInd)
      else
        .ok ((src._table.getElt (lb - 1) colInd).bind (fun prevElt =>
             (src._table.getElt lb colInd).map (fun nextElt =>
               ((time - timeCol.getD (lb - 1) 0) /
                (timeCol.getD lb 0 - timeCol.getD (lb - 1) 0)) *
               (nextElt - prevElt) + prevElt)))

/-- Componentwise `nextRow - prevRow` on `SimTK::Vector_` values. -/
def rowSub (a b : List ℚ) : List ℚ := List.zipWith (fun x y => x - y) a b

/-- Scaling of a `SimTK::Vector_` value by a scalar. -/
def rowSMul (c : ℚ) (a : List ℚ) : List ℚ := a.map (fun x => c * x)

/-- Componentwise sum of two `SimTK::Vector_` values. -/
def rowAdd (a b : List ℚ) : List ℚ := List.zipWith (fun x y => x + y) a b

/-- Model of `TableSource_::getRowAtTime(state)` (TableSource.h lines 163-188): same
structure as `getColumnAtTime` with whole-row accesses and componentwise
vector arithmetic in the interpolation branch. -/
def TableSource.getRowAtTime (src : TableSource) (time : ℚ) :
    Except TableError (Option (List ℚ)) :=
  if src._table.getNumRows = 0 then .error .EmptyTable else
  let timeCol := src._table.independentColumn
  if time < timeCol.getD 0 0 ∨ time > timeCol.getD (timeCol.length - 1) 0 then
    .error (.TimeOutOfRange time (timeCol.getD 0 0) (timeCol.getD (timeCol.length - 1) 0))
  else
    let lb := lowerBound timeCol time
    if lb = 0 then .ok (src._table.getRowAtIndex 0)
    else if lb = timeCol.length then .ok (src._table.getRowAtIndex (timeCol.length - 1))
    else if timeCol.getD lb 0 = time then .ok (src._table.getRowAtIndex lb)
    else
      .ok ((src._table.getRowAtIndex (lb - 1)).bind (fun prevRow =>
           (src._table.getRowAtIndex lb).map (fun nextRow =>
             rowAdd (rowSMul ((time - timeCol.getD (lb - 1) 0) /
                              (timeCol.getD lb 0 - timeCol.getD (lb - 1) 0))
                             (rowSub nextRow prevRow)) prevRow)))

/-- Modelled from the spec: `Output::addChannel` of the Component framework
(`ComponentOutput.h`, not among these sources); per spec §4.3 it inserts a
channel for `label` and fails with `DuplicateChannelError` when `label` is
already present. -/
def addChannel (registry : List String) (label : String) :
    List String × Option TableError :=
  if label ∈ registry then (registry, some .DuplicateChannel)
  else (registry ++ [label], none)

/-- The `for(const auto& columnLabel : labels) columnOutput.addChannel(columnLabel)`
loop: adds channels left to right; a failure (C++ exception) aborts the loop,
retaining the channels added so far. -/
def addChannels (registry : List String) : List String → List String × Option TableError
  | [] => (registry, none)
  | l :: ls =>
    match addChannel registry l with
    | (r, none) => addChannels r ls
    | (r, some e) => (r, some e)

/-- Model of `TableSource_::setTable(table)` (TableSource.h lines 102-108), step by step:
`_table = table`, then `clearChannels()`, then one `addChannel` per column label
of the new table.  `getColumnLabels()` throws `KeyNotFound` when the table has no
column labels; the state reached at a throw point is retained. -/
def TableSource.setTable (src : TableSource) (table : Table) :
    TableSource × Option TableError :=
  let src1 : TableSource := { src with _table := table }
  let src2 : TableSource := { src1 with channels := [] }
  match table.columnLabels with
  | none => (src2, some .KeyNotFound)
  | some labels =>
    let step := addChannels [] labels
    ({ src2 with channels := step.1 }, step.2)

/-- Model of `TableSource_::extendFinalizeFromProperties` (TableSource.h lines 190-195):
adds one channel per column label of the held table.  Note: no
`clearChannels()` call precedes the loop. -/
def TableSource.extendFinalizeFromProperties (src : TableSource) :
    TableSource × Option TableError :=
  match src._table.columnLabels with
  | none => (src, some .KeyNotFound)
  | some labels =>
    let step := addChannels src.channels labels
    ({ src with channels := step.1 }, step.2)

/-! ### Concrete fixtures used by the witnesses -/

/-- A well-formed three-row, two-column table: times `[1, 2, 3]`, labels
`["a", "b"]`, rows `[[10, 100], [20, 200], [30, 300]]`. -/
def tblW : Table := ⟨[1, 2, 3], some ["a", "b"], [[10, 100], [20, 200], [30, 300]]⟩

/-- A source holding `tblW` with its registry in sync. -/
def srcW : TableSource := ⟨tblW, ["a", "b"]⟩

/-- A source holding a zero-row table. -/
def srcEmpty : TableSource := ⟨⟨[], some ["a"], []⟩, []⟩

/-- A one-row table whose column labels were never set. -/
def tblNoLabels : Table := ⟨[0], none, [[5]]⟩

/-- A replacement table with labels `["x", "y"]`. -/
def tblU : Table := ⟨[0], some ["x", "y"], [[1, 2]]⟩

/-- A source whose registry already holds a channel for its table's label. -/
def srcFinalized : TableSource := ⟨⟨[1], some ["a"], [[10]]⟩, ["a"]⟩

/-- A source whose registry holds a channel for a label its table no longer has. -/
def srcStale : TableSource := ⟨⟨[1], some ["a"], [[10]]⟩, ["old"]⟩

/-! ### Bridging `List.getD` and `List.getElem` -/

theorem getD_eq_getElem {α : Type} {l : List α} {i : Nat} (h : i < l.length) (d : α) :
    l.getD i d = l[i] := by
  rw [List.getD_eq_getElem?_getD, List.getElem?_eq_getElem h, Option.getD_some]

/-! ### Characterization of `lowerBound` -/

theorem lowerBound_le_length (l : List ℚ) (t : ℚ) : lowerBound l t ≤ l.length :=
  List.findIdx_le_length _

theorem getD_lt_of_lt_lowerBound {l : List ℚ} {t : ℚ} {j : Nat}
    (h : j < lowerBound l t) : l.getD j 0 < t := by
  have hj : j < l.length := Nat.lt_of_lt_of_le h (lowerBound_le_length l t)
  have hb := List.not_of_lt_findIdx (p := fun x => !decide (x < t)) h
  rw [getD_eq_getElem hj]
  simpa using hb

theorem le_getD_lowerBound {l : List ℚ} {t : ℚ} (h : lowerBound l t < l.length) :
    t ≤ l.getD (lowerBound l t) 0 := by
  have hb := List.findIdx_getElem (p := fun x => !decide (x < t)) (w := h)
  rw [getD_eq_getElem h]
  simpa using hb

theorem lowerBound_lt_length {l : List ℚ} {t : ℚ} (hne : l ≠ [])
    (hhi : t ≤ l.getD (l.length - 1) 0) : lowerBound l t < l.length := by
  apply List.findIdx_lt_length.mpr
  have hl : l.length - 1 < l.length :=
    Nat.sub_lt (List.length_pos.mpr hne) Nat.one_pos
  refine ⟨l[l.length - 1], List.getElem_mem hl, ?_⟩
  rw [getD_eq_getElem hl] at hhi
  simpa using hhi

theorem pairwise_getD_le {l : List ℚ} (hs : l.Pairwise (· < ·)) {i j : Nat}
    (hij : i ≤ j) (hj : j < l.length) : l.getD i 0 ≤ l.getD j 0 := by
  rcases Nat.eq_or_lt_of_le hij with rfl | hlt
  · exact le_refl _
  · have hi : i < l.length := Nat.lt_trans hlt hj
    rw [getD_eq_getElem hi, getD_eq_getElem hj]
    exact le_of_lt ((List.pairwise_iff_getElem.mp hs) i j hi hj hlt)

theorem lowerBound_eq_of_exact {l : List ℚ} (hs : l.Pairwise (· < ·)) {i : Nat}
    (hi : i < l.length) : lowerBound l (l.getD i 0) = i := by
  apply (List.findIdx_eq hi).mpr
  constructor
  · rw [getD_eq_getElem hi]
    simp
  · intro j hji
    have hj : j < l.length := Nat.lt_trans hji hi
    have := (List.pairwise_iff_getElem.mp hs) j i hj hi hji
    rw [getD_eq_getElem hi]
    simpa using this

theorem lowerBound_eq_of_between {l : List ℚ} (hs : l.Pairwise (· < ·)) {i : Nat}
    {t : ℚ} (hi : i + 1 < l.length) (h1 : l.getD i 0 < t) (h2 : t < l.getD (i + 1) 0) :
    lowerBound l t = i + 1 := by
  apply (List.findIdx_eq hi).mpr
  constructor
  · rw [getD_eq_getElem hi] at h2
    simpa using le_of_lt h2
  · intro j hji
    have hj : j < l.length := Nat.lt_trans hji hi
    have hle : l.getD j 0 ≤ l.getD i 0 :=
      pairwise_getD_le hs (Nat.le_of_lt_succ hji) (Nat.lt_of_succ_lt hi)
    have : l.getD j 0 < t := lt_of_le_of_lt hle h1
    rw [getD_eq_getElem hj] at this
    simpa using this

/-! ### Well-formed table access -/

theorem getColumnIndex_lt_numColumns {tbl : Table} {label : String} {k : Nat}
    (hk : tbl.getColumnIndex label = some k) : k < tbl.numColumns := by
  unfold Table.getColumnIndex at hk
  cases hls : tbl.columnLabels with
  | none => rw [hls] at hk; exact absurd hk (by simp)
  | some ls =>
    rw [hls] at hk
    simp only [Option.some_bind] at hk
    obtain ⟨hlen, -, -⟩ := List.findIdx?_eq_some_iff_getElem.mp hk
    simpa [Table.numColumns, hls] using hlen

theorem getRowAtIndex_eq_of_lt {tbl : Table} {i : Nat} (hi : i < tbl.rows.length) :
    tbl.getRowAtIndex i = some (tbl.rows.getD i []) := by
  unfold Table.getRowAtIndex
  rw [List.getElem?_eq_getElem hi, getD_eq_getElem hi]

theorem length_row_getD {tbl : Table} (hwf : tbl.WF) {i : Nat}
    (hi : i < tbl.rows.length) : (tbl.rows.getD i []).length = tbl.numColumns := by
  rw [getD_eq_getElem hi]
  exact hwf.2 _ (List.getElem_mem hi)

theorem getElt_eq_of_lt {tbl : Table} (hwf : tbl.WF) {i k : Nat}
    (hi : i < tbl.rows.length) (hk : k < tbl.numColumns) :
    tbl.getElt i k = some ((tbl.rows.getD i []).getD k 0) := by
  unfold Table.getElt
  rw [List.getElem?_eq_getElem hi, getD_eq_getElem hi]
  simp only [Option.some_bind]
  have hk' : k < (tbl.rows[i]).length := by
    rw [hwf.2 _ (List.getElem_mem hi)]
    exact hk
  rw [List.getElem?_eq_getElem hk', getD_eq_getElem hk']

/-! ### The interpolated row, componentwise -/

theorem length_interpRow (f : ℚ) (p n : List ℚ) (h : n.length = p.length) :
    (rowAdd (rowSMul f (rowSub n p)) p).length = p.length := by
  simp [rowAdd, rowSMul, rowSub, h]

theorem getElem?_interpRow (f : ℚ) {p n : List ℚ} {k : Nat}
    (hp : k < p.length) (hn : k < n.length) :
    (rowAdd (rowSMul f (rowSub n p)) p)[k]? =
      some (f * (n.getD k 0 - p.getD k 0) + p.getD k 0) := by
  simp [rowAdd, rowSMul, rowSub, List.getElem?_zipWith, List.getElem?_map,
        List.getElem?_eq_getElem hp, List.getElem?_eq_getElem hn,
        getD_eq_getElem hp, getD_eq_getElem hn]

/-! ### Master evaluation lemma: both queries on a well-formed, non-empty table
at an in-range time succeed, answering from the same row. -/

theorem query_eval (src : TableSource) (t : ℚ)
    (hwf : src._table.WF)
    (hne : src._table.getNumRows ≠ 0)
    (hlo : ¬ t < src._table.independentColumn.getD 0 0)
    (hhi : ¬ t > src._table.independentColumn.getD
      (src._table.independentColumn.length - 1) 0) :
    ∃ row : List ℚ,
      src.getRowAtTime t = .ok (some row) ∧
      row.length = src._table.numColumns ∧
      ∀ (label : String) (k : Nat), src._table.getColumnIndex label = some k →
        src.getColumnAtTime t label = .ok (row[k]?) := by
  have htne : src._table.independentColumn ≠ [] := by
    intro h
    apply hne
    unfold Table.getNumRows
    rw [hwf.1, h]
    rfl
  have hlb : lowerBound src._table.independentColumn t <
      src._table.independentColumn.length :=
    lowerBound_lt_length htne (not_lt.mp hhi)
  have hlbr : lowerBound src._table.independentColumn t < src._table.rows.length := by
    rw [hwf.1]; exact hlb
  have h0r : 0 < src._table.rows.length := Nat.pos_of_ne_zero hne
  have hlbne : lowerBound src._table.independentColumn t ≠
      src._table.independentColumn.length := Nat.ne_of_lt hlb
  have hcond : ¬ (t < src._table.independentColumn.getD 0 0 ∨
      t > src._table.independentColumn.getD
        (src._table.independentColumn.length - 1) 0) :=
    not_or.mpr ⟨hlo, hhi⟩
  by_cases hc0 : lowerBound src._table.independentColumn t = 0
  · refine ⟨src._table.rows.getD 0 [], ?_, length_row_getD hwf h0r, ?_⟩
    · simp only [TableSource.getRowAtTime, if_neg hne, if_neg hcond, hc0, if_pos]
      rw [getRowAtIndex_eq_of_lt h0r]
    · intro label k hk
      have hkc : k < src._table.numColumns := getColumnIndex_lt_numColumns hk
      have hkl : k < (src._table.rows.getD 0 []).length := by
        rw [length_row_getD hwf h0r]; exact hkc
      simp only [TableSource.getColumnAtTime, if_neg hne, if_neg hcond, hk, hc0, if_pos]
      rw [getElt_eq_of_lt hwf h0r hkc, List.getElem?_eq_getElem hkl, getD_eq_getElem hkl]
  · by_cases hceq : src._table.independentColumn.getD
        (lowerBound src._table.independentColumn t) 0 = t
    · refine ⟨src._table.rows.getD (lowerBound src._table.independentColumn t) [],
        ?_, length_row_getD hwf hlbr, ?_⟩
      · simp only [TableSource.getRowAtTime, if_neg hne, if_neg hcond, if_neg hc0,
          if_neg hlbne, if_pos hceq]
        rw [getRowAtIndex_eq_of_lt hlbr]
      · intro label k hk
        have hkc : k < src._table.numColumns := getColumnIndex_lt_numColumns hk
        have hkl : k < (src._table.rows.getD
            (lowerBound src._table.independentColumn t) []).length := by
          rw [length_row_getD hwf hlbr]; exact hkc
        simp only [TableSource.getColumnAtTime, if_neg hne, if_neg hcond, hk, if_neg hc0,
          if_neg hlbne, if_pos hceq]
        rw [getElt_eq_of_lt hwf hlbr hkc, List.getElem?_eq_getElem hkl, getD_eq_getElem hkl]
    · have hpredr : lowerBound src._table.independentColumn t - 1 <
          src._table.rows.length :=
        Nat.lt_of_le_of_lt (Nat.sub_le _ 1) hlbr
      have hplen : (src._table.rows.getD
          (lowerBound src._table.independentColumn t - 1) []).length =
          src._table.numColumns := length_row_getD hwf hpredr
      have hnlen : (src._table.rows.getD
          (lowerBound src._table.independentColumn t) []).length =
          src._table.numColumns := length_row_getD hwf hlbr
      refine ⟨rowAdd (rowSMul ((t - src._table.independentColumn.getD
          (lowerBound src._table.independentColumn t - 1) 0) /
          (src._table.independentColumn.getD (lowerBound src._table.independentColumn t) 0 -
           src._table.independentColumn.getD
             (lowerBound src._table.independentColumn t - 1) 0))
          (rowSub (src._table.rows.getD (lowerBound src._table.independentColumn t) [])
                  (src._table.rows.getD (lowerBound src._table.independentColumn t - 1) [])))
          (src._table.rows.getD (lowerBound src._table.independentColumn t - 1) []),
        ?_, ?_, ?_⟩
      · simp only [TableSource.getRowAtTime, if_neg hne, if_neg hcond, if_neg hc0,
          if_neg hlbne, if_neg hceq]
        rw [getRowAtIndex_eq_of_lt hpredr, getRowAtIndex_eq_of_lt hlbr]
        rfl
      · rw [length_interpRow _ _ _ (hnlen.trans hplen.symm)]
        exact hplen
      · intro label k hk
        have hkc : k < src._table.numColumns := getColumnIndex_lt_numColumns hk
        have hkp : k < (src._table.rows.getD
            (lowerBound src._table.independentColumn t - 1) []).length := by
          rw [hplen]; exact hkc
        have hkn : k < (src._table.rows.getD
            (lowerBound src._table.independentColumn t) []).length := by
          rw [hnlen]; exact hkc
        simp only [TableSource.getColumnAtTime, if_neg hne, if_neg hcond, hk, if_neg hc0,
          if_neg hlbne, if_neg hceq]
        rw [getElt_eq_of_lt hwf hpredr hkc, getElt_eq_of_lt hwf hlbr hkc,
          getElem?_interpRow _ hkp hkn]
        rfl

/-! ### Claim C4 -/

/-- Claim C4: for every query time and every column label, `getColumnAtTime` and
`getRowAtTime` invoked while the held table has zero rows fail with `EmptyTable`,
regardless of the query time (and, for `getColumnAtTime`, regardless of whether
the label exists). -/
theorem getAtTime_empty_table (src : TableSource) (t : ℚ) (label : String)
    (h : src._table.getNumRows = 0) :
    src.getColumnAtTime t label = .error .EmptyTable ∧
    src.getRowAtTime t = .error .EmptyTable := by
  constructor <;>
    simp [TableSource.getColumnAtTime, TableSource.getRowAtTime, h]

/-- Claim C4 witness: a zero-row table rejects a query at time 5 for an
unknown label with `EmptyTable`. -/
theorem getAtTime_empty_table_witness :
    TableSource.getColumnAtTime srcEmpty 5 "zzz" = .error .EmptyTable ∧
    TableSource.getRowAtTime srcEmpty 5 = .error .EmptyTable :=
  getAtTime_empty_table srcEmpty 5 "zzz" (by decide)

/-! ### Claim C3 -/

/-- Claim C3: for every non-empty table and every query time strictly below the
first or strictly above the last entry of the independent column, both queries
fail with `TimeOutOfRange` carrying the offending time and the correct min and
max bounds, and never return a clamped or extrapolated value. -/
theorem getAtTime_out_of_range (src : TableSource) (t : ℚ) (label : String)
    (hne : src._table.getNumRows ≠ 0)
    (hout : t < src._table.independentColumn.getD 0 0 ∨
      t > src._table.independentColumn.getD
        (src._table.independentColumn.length - 1) 0) :
    src.getColumnAtTime t label =
      .error (.TimeOutOfRange t (src._table.independentColumn.getD 0 0)
        (src._table.independentColumn.getD (src._table.independentColumn.length - 1) 0)) ∧
    src.getRowAtTime t =
      .error (.TimeOutOfRange t (src._table.independentColumn.getD 0 0)
        (src._table.independentColumn.getD (src._table.independentColumn.length - 1) 0)) := by
  constructor <;>
    simp only [TableSource.getColumnAtTime, TableSource.getRowAtTime,
      if_neg hne, if_pos hout]

/-- Claim C3 witness: querying `tblW` (times 1..3) at time 0 fails with
`TimeOutOfRange 0 1 3` on both entry points. -/
theorem getAtTime_out_of_range_witness :
    TableSource.getColumnAtTime srcW 0 "a" = .error (.TimeOutOfRange 0 1 3) ∧
    TableSource.getRowAtTime srcW 0 = .error (.TimeOutOfRange 0 1 3) := by
  have h := getAtTime_out_of_range srcW 0 "a" (by decide) (by decide)
  exact ⟨by rw [h.1]; decide, by rw [h.2]; decide⟩

/-! ### Claim C5 (corrected) -/

/-- Claim C5 counterexample: the claim says an unknown label fails with the
unknown-column error for every table and time; but on a zero-row table the code
checks emptiness first and fails with `EmptyTable` instead. -/
theorem getColumnAtTime_label_not_first_cex :
    TableSource.getColumnAtTime srcEmpty 5 "zzz" = .error .EmptyTable ∧
    TableSource.getColumnAtTime srcEmpty 5 "zzz" ≠ .error .KeyNotFound := by
  decide

/-- Claim C5 amended: `getColumnAtTime` resolves the column index only after the
empty-table and range checks pass, but before the binary search: for every
non-empty table and in-range query time, an unknown label fails with the
unknown-column error (`KeyNotFound`). -/
theorem getColumnAtTime_unknown_label (src : TableSource) (t : ℚ) (label : String)
    (hne : src._table.getNumRows ≠ 0)
    (hlo : ¬ t < src._table.independentColumn.getD 0 0)
    (hhi : ¬ t > src._table.independentColumn.getD
      (src._table.independentColumn.length - 1) 0)
    (hk : src._table.getColumnIndex label = none) :
    src.getColumnAtTime t label = .error .KeyNotFound := by
  simp only [TableSource.getColumnAtTime, if_neg hne,
    if_neg (not_or.mpr ⟨hlo, hhi⟩), hk]

/-- Claim C5 amended witness: an unknown label on the non-empty `tblW` at
in-range time 2 fails with `KeyNotFound`. -/
theorem getColumnAtTime_unknown_label_witness :
    TableSource.getColumnAtTime srcW 2 "zzz" = .error .KeyNotFound :=
  getColumnAtTime_unknown_label srcW 2 "zzz" (by decide) (by decide)
    (by decide) (by decide)

/-! ### Claim C6 -/

/-- Claim C6: for every well-formed table, every in-range query time, and every
column label at column index `k`, the `k`-th element of `getRowAtTime`'s result
equals `getColumnAtTime`'s result at the same time: both queries take the same
branch and use the same bracketing samples and interpolation fraction. -/
theorem row_column_consistency (src : TableSource) (t : ℚ) (label : String) (k : Nat)
    (hwf : src._table.WF)
    (hne : src._table.getNumRows ≠ 0)
    (hlo : ¬ t < src._table.independentColumn.getD 0 0)
    (hhi : ¬ t > src._table.independentColumn.getD
      (src._table.independentColumn.length - 1) 0)
    (hk : src._table.getColumnIndex label = some k) :
    ∃ (row : List ℚ) (v : ℚ),
      src.getRowAtTime t = .ok (some row) ∧
      src.getColumnAtTime t label = .ok (some v) ∧
      row[k]? = some v := by
  obtain ⟨row, hrow, hlen, hcol⟩ := query_eval src t hwf hne hlo hhi
  have hkl : k < row.length := by
    rw [hlen]; exact getColumnIndex_lt_numColumns hk
  refine ⟨row, row[k], hrow, ?_, List.getElem?_eq_getElem hkl⟩
  rw [hcol label k hk, List.getElem?_eq_getElem hkl]

/-- Claim C6 witness: on `tblW` at the strictly-interior time 3/2, the row query
and the field query for label "b" (index 1) agree. -/
theorem row_column_consistency_witness :
    ∃ (row : List ℚ) (v : ℚ),
      TableSource.getRowAtTime srcW (3/2) = .ok (some row) ∧
      TableSource.getColumnAtTime srcW (3/2) "b" = .ok (some v) ∧
      row[1]? = some v :=
  row_column_consistency srcW (3/2) "b" 1 (by decide) (by decide)
    (by norm_num [srcW, tblW]) (by norm_num [srcW, tblW]) (by decide)

/-! ### Claim C10 -/

/-- Claim C10: under the preconditions that the held table is well formed and
non-empty and the query time lies within the independent column's range, every
row and element access performed by `getColumnAtTime` and `getRowAtTime` is in
bounds: the out-of-bounds (`none`) branch of the bounds-checked embedding of
table access is unreachable, for any label. -/
theorem query_access_in_bounds (src : TableSource) (t : ℚ) (label : String)
    (hwf : src._table.WF)
    (hne : src._table.getNumRows ≠ 0)
    (hlo : ¬ t < src._table.independentColumn.getD 0 0)
    (hhi : ¬ t > src._table.independentColumn.getD
      (src._table.independentColumn.length - 1) 0) :
    src.getRowAtTime t ≠ .ok none ∧ src.getColumnAtTime t label ≠ .ok none := by
  obtain ⟨row, hrow, hlen, hcol⟩ := query_eval src t hwf hne hlo hhi
  constructor
  · rw [hrow]; simp
  · cases hk : src._table.getColumnIndex label with
    | none =>
      have hred : src.getColumnAtTime t label = .error .KeyNotFound := by
        simp only [TableSource.getColumnAtTime, if_neg hne,
          if_neg (not_or.mpr ⟨hlo, hhi⟩), hk]
      rw [hred]; simp
    | some k =>
      have hkl : k < row.length := by
        rw [hlen]; exact getColumnIndex_lt_numColumns hk
      rw [hcol label k hk, List.getElem?_eq_getElem hkl]
      simp

/-- Claim C10 witness: on `tblW` at in-range time 3/2 neither query reaches the
out-of-bounds branch. -/
theorem query_access_in_bounds_witness :
    TableSource.getRowAtTime srcW (3/2) ≠ .ok none ∧
    TableSource.getColumnAtTime srcW (3/2) "a" ≠ .ok none :=
  query_access_in_bounds srcW (3/2) "a" (by decide) (by decide)
    (by norm_num [srcW, tblW]) (by norm_num [srcW, tblW])

/-! ### Claim C2 -/

/-- Claim C2: for every well-formed table with at least one row and every stored
row index `i`, querying at the stored time `time[i]` returns exactly the stored
sample at index `i` with no interpolation applied (in particular, at the minimum
time the first row's value, and at the maximum time the last row's value), for
both `getColumnAtTime` and `getRowAtTime`. -/
theorem getAtTime_exact_hit (src : TableSource) (i k : Nat) (label : String)
    (hwf : src._table.WF)
    (hsort : src._table.independentColumn.Pairwise (· < ·))
    (hi : i < src._table.independentColumn.length)
    (hk : src._table.getColumnIndex label = some k) :
    src.getColumnAtTime (src._table.independentColumn.getD i 0) label =
      .ok (some ((src._table.rows.getD i []).getD k 0)) ∧
    src.getRowAtTime (src._table.independentColumn.getD i 0) =
      .ok (some (src._table.rows.getD i [])) := by
  set t := src._table.independentColumn.getD i 0 with ht
  have hir : i < src._table.rows.length := by rw [hwf.1]; exact hi
  have hne : src._table.getNumRows ≠ 0 := by
    unfold Table.getNumRows; omega
  have hlast : src._table.independentColumn.length - 1 <
      src._table.independentColumn.length := by omega
  have hlo : ¬ t < src._table.independentColumn.getD 0 0 :=
    not_lt.mpr (pairwise_getD_le hsort (Nat.zero_le i) hi)
  have hhi : ¬ t > src._table.independentColumn.getD
      (src._table.independentColumn.length - 1) 0 :=
    not_lt.mpr (pairwise_getD_le hsort (by omega) hlast)
  have hcond := not_or.mpr ⟨hlo, hhi⟩
  have hlb : lowerBound src._table.independentColumn t = i :=
    lowerBound_eq_of_exact hsort hi
  have hkc : k < src._table.numColumns := getColumnIndex_lt_numColumns hk
  by_cases hi0 : i = 0
  · subst hi0
    constructor
    · simp only [TableSource.getColumnAtTime, if_neg hne, if_neg hcond, hk, hlb, if_pos]
      rw [getElt_eq_of_lt hwf hir hkc]
    · simp only [TableSource.getRowAtTime, if_neg hne, if_neg hcond, hlb, if_pos]
      rw [getRowAtIndex_eq_of_lt hir]
  · have hnel : i ≠ src._table.independentColumn.length := Nat.ne_of_lt hi
    constructor
    · simp only [TableSource.getColumnAtTime, if_neg hne, if_neg hcond, hk, hlb,
        if_neg hi0, if_neg hnel, if_pos ht.symm, if_true]
      rw [getElt_eq_of_lt hwf hir hkc]
    · simp only [TableSource.getRowAtTime, if_neg hne, if_neg hcond, hlb,
        if_neg hi0, if_neg hnel, if_pos ht.symm, if_true]
      rw [getRowAtIndex_eq_of_lt hir]

/-- Claim C2 witness: on `tblW`, querying at the stored time 2 (index 1) returns
the stored sample `20` for label "b"... the stored element 200 for "b" and the
stored row `[20, 200]`; no interpolation drift. -/
theorem getAtTime_exact_hit_witness :
    TableSource.getColumnAtTime srcW 2 "b" = .ok (some 200) ∧
    TableSource.getRowAtTime srcW 2 = .ok (some [20, 200]) := by
  have h := getAtTime_exact_hit srcW 1 1 "b" (by decide) (by decide) (by decide)
    (by decide)
  have e : srcW._table.independentColumn.getD 1 0 = 2 := by decide
  rw [e] at h
  exact ⟨by rw [h.1]; decide, by rw [h.2]; decide⟩

/-! ### Claim C1 -/

/-- The componentwise form of the vector expression
`fraction * (nextRow - prevRow) + prevRow`. -/
theorem interpRow_eq_zipWith (f : ℚ) : ∀ p n : List ℚ,
    rowAdd (rowSMul f (rowSub n p)) p =
      List.zipWith (fun a b => a + f * (b - a)) p n := by
  intro p
  induction p with
  | nil => intro n; cases n <;> simp [rowAdd, rowSMul, rowSub]
  | cons a p ih =>
    intro n
    cases n with
    | nil => simp [rowAdd, rowSMul, rowSub]
    | cons b n =>
      simp only [rowAdd, rowSMul, rowSub, List.zipWith_cons_cons, List.map_cons] at ih ⊢
      rw [ih n]
      congr 1
      ring

/-- Claim C1: for every well-formed table with at least two rows and every query
time strictly between the consecutive stored sample times at indices `i` and
`i+1`, `getColumnAtTime` and `getRowAtTime` return the linear interpolation
`prev.value + ((time - prev.time) / (next.time - prev.time)) * (next.value -
prev.value)`, applied to the selected column (`getColumnAtTime`) or elementwise
to every column (`getRowAtTime`). -/
theorem getAtTime_linear_interpolation (src : TableSource) (t : ℚ) (i k : Nat)
    (label : String)
    (hwf : src._table.WF)
    (hsort : src._table.independentColumn.Pairwise (· < ·))
    (hi : i + 1 < src._table.independentColumn.length)
    (hk : src._table.getColumnIndex label = some k)
    (h1 : src._table.independentColumn.getD i 0 < t)
    (h2 : t < src._table.independentColumn.getD (i + 1) 0) :
    src.getColumnAtTime t label =
      .ok (some ((src._table.rows.getD i []).getD k 0 +
        ((t - src._table.independentColumn.getD i 0) /
         (src._table.independentColumn.getD (i + 1) 0 -
          src._table.independentColumn.getD i 0)) *
        ((src._table.rows.getD (i + 1) []).getD k 0 -
         (src._table.rows.getD i []).getD k 0))) ∧
    src.getRowAtTime t =
      .ok (some (List.zipWith (fun a b => a +
        ((t - src._table.independentColumn.getD i 0) /
         (src._table.independentColumn.getD (i + 1) 0 -
          src._table.independentColumn.getD i 0)) * (b - a))
        (src._table.rows.getD i []) (src._table.rows.getD (i + 1) []))) := by
  have hil : i < src._table.independentColumn.length := by omega
  have hir : i < src._table.rows.length := by rw [hwf.1]; omega
  have hi1r : i + 1 < src._table.rows.length := by rw [hwf.1]; exact hi
  have hne : src._table.getNumRows ≠ 0 := by
    unfold Table.getNumRows; omega
  have hlast : src._table.independentColumn.length - 1 <
      src._table.independentColumn.length := by omega
  have hlo : ¬ t < src._table.independentColumn.getD 0 0 :=
    not_lt.mpr (le_of_lt (lt_of_le_of_lt
      (pairwise_getD_le hsort (Nat.zero_le i) hil) h1))
  have hhi : ¬ t > src._table.independentColumn.getD
      (src._table.independentColumn.length - 1) 0 :=
    not_lt.mpr (le_of_lt (lt_of_lt_of_le h2
      (pairwise_getD_le hsort (by omega) hlast)))
  have hcond := not_or.mpr ⟨hlo, hhi⟩
  have hlb : lowerBound src._table.independentColumn t = i + 1 :=
    lowerBound_eq_of_between hsort hi h1 h2
  have hkc : k < src._table.numColumns := getColumnIndex_lt_numColumns hk
  have hne1 : i + 1 ≠ 0 := Nat.succ_ne_zero i
  have hnel : i + 1 ≠ src._table.independentColumn.length := Nat.ne_of_lt hi
  constructor
  · simp only [TableSource.getColumnAtTime, if_neg hne, if_neg hcond, hk, hlb,
      if_neg hne1, if_neg hnel, if_neg (ne_of_gt h2), Nat.add_sub_cancel]
    rw [getElt_eq_of_lt hwf hir hkc, getElt_eq_of_lt hwf hi1r hkc]
    simp only [Option.some_bind, Option.map_some']
    rw [add_comm]
  · simp only [TableSource.getRowAtTime, if_neg hne, if_neg hcond, hlb,
      if_neg hne1, if_neg hnel, if_neg (ne_of_gt h2), Nat.add_sub_cancel]
    rw [getRowAtIndex_eq_of_lt hir, getRowAtIndex_eq_of_lt hi1r]
    simp only [Option.some_bind, Option.map_some']
    rw [interpRow_eq_zipWith]

/-- Claim C1 witness: on `tblW` at time 3/2, strictly between the stored times 1
and 2, the field query for "a" returns 15 (the midpoint of 10 and 20) and the
row query returns `[15, 150]`. -/
theorem getAtTime_linear_interpolation_witness :
    TableSource.getColumnAtTime srcW (3/2) "a" = .ok (some 15) ∧
    TableSource.getRowAtTime srcW (3/2) = .ok (some [15, 150]) := by
  have h := getAtTime_linear_interpolation srcW (3/2) 0 0 "a" (by decide)
    (by decide) (by decide) (by decide) (by norm_num [srcW, tblW])
    (by norm_num [srcW, tblW])
  refine ⟨?_, ?_⟩
  · rw [h.1]; norm_num [srcW, tblW]
  · rw [h.2]; norm_num [srcW, tblW]

/-! ### Facts about the channel loop -/

theorem addChannels_ok : ∀ (ls acc res : List String),
    addChannels acc ls = (res, none) → res = acc ++ ls := by
  intro ls
  induction ls with
  | nil =>
    intro acc res h
    simp only [addChannels, Prod.mk.injEq] at h
    simp [← h.1]
  | cons l ls ih =>
    intro acc res h
    unfold addChannels addChannel at h
    by_cases hmem : l ∈ acc
    · simp [hmem] at h
    · simp only [if_neg hmem] at h
      have := ih (acc ++ [l]) res h
      simpa [List.append_assoc] using this

theorem mem_addChannels : ∀ (ls acc : List String) (c : String),
    c ∈ (addChannels acc ls).1 → c ∈ acc ∨ c ∈ ls := by
  intro ls
  induction ls with
  | nil =>
    intro acc c h
    exact Or.inl (by simpa [addChannels] using h)
  | cons l ls ih =>
    intro acc c h
    unfold addChannels addChannel at h
    by_cases hmem : l ∈ acc
    · simp only [if_pos hmem] at h
      exact Or.inl h
    · simp only [if_neg hmem] at h
      rcases ih (acc ++ [l]) c h with h' | h'
      · rcases List.mem_append.mp h' with h'' | h''
        · exact Or.inl h''
        · right
          simp only [List.mem_singleton] at h''
          simp [h'']
      · right
        simp [h']

theorem addChannels_disjoint : ∀ (ls acc : List String),
    (∀ l ∈ ls, l ∉ acc) → ls.Nodup → addChannels acc ls = (acc ++ ls, none) := by
  intro ls
  induction ls with
  | nil => intro acc _ _; simp [addChannels]
  | cons l ls ih =>
    intro acc hd hnd
    have hlm : l ∉ acc := hd l (by simp)
    unfold addChannels addChannel
    simp only [if_neg hlm]
    rw [ih (acc ++ [l]) ?_ (List.Nodup.of_cons hnd)]
    · simp
    · intro x hx
      simp only [List.mem_append, List.mem_singleton, not_or]
      refine ⟨hd x (by simp [hx]), ?_⟩
      intro hxl
      subst hxl
      exact (List.nodup_cons.mp hnd).1 hx

/-! ### Claim C7 -/

/-- Claim C7: after every successful call to `setTable(T)`, for any prior state
of the channel registry (including one already populated from a different
table), the registry's labels are exactly `T`'s column labels, in `T`'s column
order — no stale channels and no missing ones — and the held table is `T`. -/
theorem setTable_syncs_channels (src : TableSource) (tbl : Table)
    (src' : TableSource) (h : TableSource.setTable src tbl = (src', none)) :
    src'._table = tbl ∧ src'.channels = tbl.columnLabels.getD [] := by
  unfold TableSource.setTable at h
  cases hls : tbl.columnLabels with
  | none =>
    rw [hls] at h
    simp at h
  | some ls =>
    rw [hls] at h
    simp only [Prod.mk.injEq] at h
    rcases hstep : addChannels [] ls with ⟨res, err⟩
    rw [hstep] at h
    obtain ⟨h1, h2⟩ := h
    subst h2
    have hres : res = [] ++ ls := addChannels_ok ls [] res hstep
    rw [← h1]
    simp [hres, hls]

/-- Claim C7 witness: replacing `tblW` (labels `["a", "b"]`) by `tblU` (labels
`["x", "y"]`) succeeds and leaves the registry exactly `["x", "y"]`. -/
theorem setTable_syncs_channels_witness :
    (TableSource.mk tblU ["x", "y"])._table = tblU ∧
    (TableSource.mk tblU ["x", "y"]).channels = tblU.columnLabels.getD [] :=
  setTable_syncs_channels srcW tblU ⟨tblU, ["x", "y"]⟩ (by decide)

/-! ### Claim C8 (corrected) -/

/-- Claim C8 counterexample: replacing the table of a populated source by a
table whose column labels were never set fails with `KeyNotFound`, yet the held
table HAS been replaced and the registry cleared: the failed attempt leaves
state that is neither the pre-call state nor a full replacement (the new table
has no column-label set for the registry to mirror). -/
theorem setTable_not_atomic_cex :
    (TableSource.setTable srcW tblNoLabels).2 ≠ none ∧
    (TableSource.setTable srcW tblNoLabels).1 ≠ srcW ∧
    (TableSource.setTable srcW tblNoLabels).1._table ≠ srcW._table ∧
    tblNoLabels.columnLabels = none ∧
    (TableSource.setTable srcW tblNoLabels).1.channels = [] := by
  decide

/-- Claim C8 amended: `setTable` is not atomic: the held table is assigned and
the registry cleared before the new table's labels are read, so a failed
replacement leaves the source holding the NEW table, with a registry containing
only the channels added before the failure — empty when the new table has no
column labels, and in any case only labels of the new table. -/
theorem setTable_failure_leaves_new_table (src : TableSource) (tbl : Table)
    (src' : TableSource) (e : TableError)
    (h : TableSource.setTable src tbl = (src', some e)) :
    src'._table = tbl ∧
    (tbl.columnLabels = none → src'.channels = []) ∧
    ∀ ls, tbl.columnLabels = some ls → ∀ c ∈ src'.channels, c ∈ ls := by
  unfold TableSource.setTable at h
  cases hls : tbl.columnLabels with
  | none =>
    rw [hls] at h
    simp only [Prod.mk.injEq] at h
    rw [← h.1]
    refine ⟨rfl, fun _ => rfl, ?_⟩
    intro ls hsome
    exact absurd hsome (by simp)
  | some ls =>
    rw [hls] at h
    simp only [Prod.mk.injEq] at h
    obtain ⟨h1, -⟩ := h
    rw [← h1]
    refine ⟨rfl, ?_, ?_⟩
    · intro hnone
      exact absurd hnone (by simp)
    · intro ls' hsome c hc
      obtain rfl : ls = ls' := by injection hsome
      rcases mem_addChannels ls [] c hc with h' | h'
      · exact absurd h' (by simp)
      · exact h'

/-- Claim C8 amended witness: the failed replacement of `srcW`'s table by the
label-less `tblNoLabels` leaves the new table held and the registry empty. -/
theorem setTable_failure_leaves_new_table_witness :
    (TableSource.mk tblNoLabels [])._table = tblNoLabels ∧
    (tblNoLabels.columnLabels = none → (TableSource.mk tblNoLabels []).channels = []) ∧
    ∀ ls, tblNoLabels.columnLabels = some ls →
      ∀ c ∈ (TableSource.mk tblNoLabels []).channels, c ∈ ls :=
  setTable_failure_leaves_new_table srcW tblNoLabels ⟨tblNoLabels, []⟩ .KeyNotFound (by decide)

/-! ### Claim C9 (corrected) -/

/-- Claim C9 counterexample: `extendFinalizeFromProperties` does NOT clear the
registry before adding channels: invoked on a source whose registry already
holds its table's label it raises `DuplicateChannel`, and invoked on a source
whose registry holds a stale label (not a column of the table) it retains that
stale channel. -/
theorem extendFinalize_no_clear_cex :
    (TableSource.extendFinalizeFromProperties srcFinalized).2 =
      some .DuplicateChannel ∧
    (TableSource.extendFinalizeFromProperties srcStale).1.channels = ["old", "a"] ∧
    "old" ∉ srcStale._table.columnLabels.getD [] := by
  decide

/-- Claim C9 amended: `setTable` clears the registry before repopulating (claim
C7), but `extendFinalizeFromProperties` does not clear: it appends one channel
per column label of the held table to the existing registry, and therefore
succeeds only when the registry does not already hold any of those labels (as
on the first initialization, when the registry is empty). -/
theorem extendFinalize_appends (src : TableSource) (ls : List String)
    (hls : src._table.columnLabels = some ls)
    (hdisj : ∀ l ∈ ls, l ∉ src.channels)
    (hnd : ls.Nodup) :
    TableSource.extendFinalizeFromProperties src =
      (⟨src._table, src.channels ++ ls⟩, none) := by
  unfold TableSource.extendFinalizeFromProperties
  rw [hls]
  simp only [addChannels_disjoint ls src.channels hdisj hnd]

/-- Claim C9 amended witness: finalizing `srcStale` (registry `["old"]`, table
labels `["a"]`) appends rather than clears: the registry becomes
`["old", "a"]`. -/
theorem extendFinalize_appends_witness :
    TableSource.extendFinalizeFromProperties srcStale =
      (⟨srcStale._table, srcStale.channels ++ ["a"]⟩, none) :=
  extendFinalize_appends srcStale ["a"] (by decide) (by decide) (by decide)

end OpenSim
